/-
Verification of the moderation case / escalation / scheduling subsystem of
the bills-bot Discord moderation bot.

The embedding below models the relational store as explicit lists of rows and
translates the documented operations (`getNextCaseNumber`, `createCase`,
case deletion, `checkEscalation`, `pollTempbans`, `checkHierarchy`,
the ban command's execute flow, and `setConfigValue`) into pure Lean
functions.  Where the repository snapshot ships only the feature
documentation, its pseudo-code and its unit tests for a function, the
definition is modelled from those documents and from the specification,
and is marked as such in its doc comment.
-/
import Mathlib

namespace BillsBot

/-! ## Data model: moderation cases

Mirrors the `mod_cases` table (`src/unnamed/part_001`, Schema section):
columns id, guild_id, case_number, action, target_id, target_tag,
moderator_id, moderator_tag, reason, duration, expires_at, created_at.
Timestamps are modelled as natural numbers (milliseconds). -/

structure Case where
  id : Nat
  guildId : String
  caseNumber : Nat
  action : String
  targetId : String
  targetTag : String
  moderatorId : String
  moderatorTag : String
  reason : Option String
  duration : Option String
  expiresAt : Option Nat
  createdAt : Nat
  deriving Repr, DecidableEq

/-- The fields a caller supplies to `createCase` (action, target, moderator,
reason, duration, expiry); id / caseNumber / createdAt are store-assigned. -/
structure CaseFields where
  action : String
  targetId : String
  targetTag : String
  moderatorId : String
  moderatorTag : String
  reason : Option String
  duration : Option String
  expiresAt : Option Nat
  deriving Repr, DecidableEq

/-- The rows of a guild: `WHERE guild_id = $1`. -/
def guildCases (db : List Case) (g : String) : List Case :=
  db.filter (fun c => c.guildId == g)

/-- `COALESCE(MAX(case_number), 0)` over a guild's rows: fold of `max`
starting at 0. -/
def maxCaseNumber (db : List Case) (g : String) : Nat :=
  (guildCases db g).foldr (fun c acc => max c.caseNumber acc) 0

/-- Modelled from the spec: `getNextCaseNumber(guildId)` of the missing
`src/modules/moderation.js`, per `src/unnamed/part_001` ("Case number
generation uses `COALESCE(MAX(case_number), 0) + 1` pattern", FR-1) and the
unit tests (`SELECT MAX(case_number) ... => max_num`, null ↦ 1, 5 ↦ 6). -/
def getNextCaseNumber (db : List Case) (g : String) : Nat :=
  maxCaseNumber db g + 1

/-- Modelled from the spec: `createCase(guildId, fields)` of the missing
`src/modules/moderation.js`: allocates `getNextCaseNumber` and inserts a row
with the given fields (two separate store statements, no transaction, per
the unit tests).  Returns the updated table and the inserted row. -/
def createCase (db : List Case) (g : String) (f : CaseFields)
    (rowId now : Nat) : List Case × Case :=
  let n := getNextCaseNumber db g
  let c : Case :=
    { id := rowId, guildId := g, caseNumber := n, action := f.action,
      targetId := f.targetId, targetTag := f.targetTag,
      moderatorId := f.moderatorId, moderatorTag := f.moderatorTag,
      reason := f.reason, duration := f.duration,
      expiresAt := f.expiresAt, createdAt := now }
  (db ++ [c], c)

/-- Modelled from the spec: `/case delete` performs a hard `DELETE` of the
row matching `(guild_id, case_number)` (`src/unnamed/part_001`, FR-6,
"hard DELETE, not a soft delete"). -/
def deleteCase (db : List Case) (g : String) (n : Nat) : List Case :=
  db.filter (fun c => !(c.guildId == g && c.caseNumber == n))

/-! ### Basic facts about the fold computing `MAX(case_number)` -/

theorem le_maxCaseNumber (db : List Case) (g : String) :
    ∀ c ∈ guildCases db g, c.caseNumber ≤ maxCaseNumber db g := by
  unfold maxCaseNumber
  induction guildCases db g with
  | nil => intro c hc; cases hc
  | cons a l ih =>
    intro c hc
    rcases List.mem_cons.mp hc with h | h
    · subst h; exact le_max_left _ _
    · exact le_trans (ih c h) (le_max_right _ _)

theorem maxCaseNumber_mem (db : List Case) (g : String) :
    maxCaseNumber db g = 0 ∨
      ∃ c ∈ guildCases db g, c.caseNumber = maxCaseNumber db g := by
  unfold maxCaseNumber
  induction guildCases db g with
  | nil => exact Or.inl rfl
  | cons a l ih =>
    rcases Nat.le_total a.caseNumber (l.foldr (fun c acc => max c.caseNumber acc) 0) with h | h
    · rcases ih with h0 | ⟨c, hc, hmax⟩
      · rw [List.foldr_cons, h0]
        rcases Nat.eq_zero_of_le_zero (h0 ▸ h) with ha
        exact Or.inl (by simp [ha])
      · exact Or.inr ⟨c, List.mem_cons_of_mem _ hc, by
          rw [List.foldr_cons, hmax] at *
          omega⟩
    · exact Or.inr ⟨a, List.mem_cons_self _ _, by
        rw [List.foldr_cons]
        omega⟩

theorem guildCases_nil_of_no_case (db : List Case) (g : String)
    (h : ∀ c ∈ db, c.guildId ≠ g) : guildCases db g = [] := by
  unfold guildCases
  rw [List.filter_eq_nil_iff]
  intro c hc
  simpa using h c hc

theorem getNextCaseNumber_eq_one (db : List Case) (g : String)
    (h : ∀ c ∈ db, c.guildId ≠ g) : getNextCaseNumber db g = 1 := by
  unfold getNextCaseNumber
  rw [show maxCaseNumber db g = 0 from ?_]
  unfold maxCaseNumber
  rw [guildCases_nil_of_no_case db g h]
  rfl

theorem mem_guildCases {db : List Case} {g : String} {c : Case} :
    c ∈ guildCases db g ↔ c ∈ db ∧ c.guildId = g := by
  simp [guildCases]

/-- Sample field values used for concrete evaluations. -/
def sampleFields : CaseFields :=
  { action := "warn", targetId := "user1", targetTag := "User#0001",
    moderatorId := "mod1", moderatorTag := "Mod#0001",
    reason := some "test reason", duration := none, expiresAt := none }

/-- C1: `getNextCaseNumber(guildId)` returns 1 when the guild has no cases,
and `max(caseNumber)` over the guild's cases plus 1 otherwise; `createCase`
persists a row carrying exactly that number. -/
theorem nextCaseNumber_max_plus_one (db : List Case) (g : String)
    (f : CaseFields) (rowId now : Nat) :
    ((∀ c ∈ db, c.guildId ≠ g) → getNextCaseNumber db g = 1)
    ∧ ((∃ c ∈ db, c.guildId = g) →
        ∃ c ∈ db, c.guildId = g ∧ getNextCaseNumber db g = c.caseNumber + 1
          ∧ ∀ d ∈ db, d.guildId = g → d.caseNumber ≤ c.caseNumber)
    ∧ (createCase db g f rowId now).2.caseNumber = getNextCaseNumber db g
    ∧ (createCase db g f rowId now).2 ∈ (createCase db g f rowId now).1 := by
  refine ⟨getNextCaseNumber_eq_one db g, ?_, by simp [createCase], by simp [createCase]⟩
  rintro ⟨c0, hc0, hg0⟩
  rcases maxCaseNumber_mem db g with h0 | ⟨c, hc, hmax⟩
  · refine ⟨c0, hc0, hg0, ?_, ?_⟩
    · have hle := le_maxCaseNumber db g c0 (mem_guildCases.mpr ⟨hc0, hg0⟩)
      unfold getNextCaseNumber
      omega
    · intro d hd hdg
      have := le_maxCaseNumber db g d (mem_guildCases.mpr ⟨hd, hdg⟩)
      have := le_maxCaseNumber db g c0 (mem_guildCases.mpr ⟨hc0, hg0⟩)
      omega
  · rcases mem_guildCases.mp hc with ⟨hcdb, hcg⟩
    refine ⟨c, hcdb, hcg, ?_, ?_⟩
    · unfold getNextCaseNumber
      omega
    · intro d hd hdg
      have := le_maxCaseNumber db g d (mem_guildCases.mpr ⟨hd, hdg⟩)
      omega

/-- Witness for C1 at concrete inputs: a table holding cases #1 and #3 for
guild `g1` (and a case for another guild); the next number is 4 = 3 + 1,
and on the empty table it is 1. -/
theorem nextCaseNumber_max_plus_one_witness :
    getNextCaseNumber
        [{ id := 1, guildId := "g1", caseNumber := 1, action := "warn",
           targetId := "u", targetTag := "U", moderatorId := "m",
           moderatorTag := "M", reason := none, duration := none,
           expiresAt := none, createdAt := 5 },
         { id := 2, guildId := "g2", caseNumber := 9, action := "ban",
           targetId := "u", targetTag := "U", moderatorId := "m",
           moderatorTag := "M", reason := none, duration := none,
           expiresAt := none, createdAt := 6 },
         { id := 3, guildId := "g1", caseNumber := 3, action := "kick",
           targetId := "u", targetTag := "U", moderatorId := "m",
           moderatorTag := "M", reason := none, duration := none,
           expiresAt := none, createdAt := 7 }] "g1" = 4
    ∧ getNextCaseNumber [] "g1" = 1
    ∧ (createCase [] "g1" sampleFields 1 100).2.caseNumber = 1 := by
  have h := nextCaseNumber_max_plus_one [] "g1" sampleFields 1 100
  exact ⟨by decide, h.1 (by intro c hc; cases hc), h.2.2.1.trans (h.1 (by intro c hc; cases hc))⟩

/-- C2 counterexample: on an empty store, create case #1 for guild `g`,
hard-delete it, create again — the new case gets number 1 again, not 2:
case numbers ARE reused after deleting the guild's highest-numbered case. -/
theorem caseNumber_reused_after_delete :
    (createCase (deleteCase (createCase [] "g" sampleFields 1 100).1 "g" 1)
        "g" sampleFields 2 200).2.caseNumber = 1
    ∧ (createCase (deleteCase (createCase [] "g" sampleFields 1 100).1 "g" 1)
        "g" sampleFields 2 200).2.caseNumber ≠ 2 := by
  decide

/-- C2 as amended: because `getNextCaseNumber` is `MAX(case_number) + 1`
over the rows that currently exist and deletion is a hard `DELETE`, deleting
a guild's highest-numbered case makes its number reusable.  In a guild with
no prior cases, create (#1) / delete / create yields case number 1 again. -/
theorem caseNumber_reuse_general (db : List Case) (g : String)
    (f f' : CaseFields) (id1 id2 t1 t2 : Nat)
    (h : ∀ c ∈ db, c.guildId ≠ g) :
    (createCase (deleteCase (createCase db g f id1 t1).1 g 1) g f' id2 t2).2.caseNumber
      = 1 := by
  have h1 : getNextCaseNumber db g = 1 := getNextCaseNumber_eq_one db g h
  have hdel : deleteCase (createCase db g f id1 t1).1 g 1 = db := by
    unfold createCase deleteCase
    simp only [List.filter_append]
    rw [List.filter_eq_self.mpr, show getNextCaseNumber db g = 1 from h1]
    · simp
    · intro c hc
      simp [h c hc]
  rw [hdel]
  exact getNextCaseNumber_eq_one db g h

/-- Witness for the amended C2 on the empty store. -/
theorem caseNumber_reuse_general_witness :
    (createCase (deleteCase (createCase [] "g" sampleFields 1 100).1 "g" 1)
        "g" sampleFields 2 200).2.caseNumber = 1 :=
  caseNumber_reuse_general [] "g" sampleFields sampleFields 1 2 100 200
    (by intro c hc; cases hc)

/-! ## Concurrency model for case-number allocation

`createCase` issues two separate store statements (per the unit tests: one
`SELECT MAX(case_number) ...`, then one `INSERT`), with no transaction or
row lock.  Two concurrent `createCase` calls for the same guild are modelled
as interleavings of their read and write steps against the shared table. -/

inductive Caller where
  | A
  | B
  deriving Repr, DecidableEq

inductive AllocStep where
  | read (who : Caller)
  | write (who : Caller)
  deriving Repr, DecidableEq

/-- Shared table plus each caller's local state: the case number its
`SELECT` computed (awaiting `INSERT`) and the number it finally inserted. -/
structure AllocState where
  db : List Case
  locA : Option Nat
  locB : Option Nat
  resA : Option Nat
  resB : Option Nat
  deriving Repr, DecidableEq

/-- `INSERT INTO mod_cases ... case_number = n`. -/
def insertRow (db : List Case) (g : String) (n : Nat) (f : CaseFields) : List Case :=
  db ++ [{ id := 0, guildId := g, caseNumber := n, action := f.action,
           targetId := f.targetId, targetTag := f.targetTag,
           moderatorId := f.moderatorId, moderatorTag := f.moderatorTag,
           reason := f.reason, duration := f.duration,
           expiresAt := f.expiresAt, createdAt := 0 }]

/-- One step of an interleaved pair of `createCase` calls: a read runs the
`MAX(case_number) + 1` query against the current table; a write inserts the
previously read number. -/
def allocStep (g : String) (f : CaseFields) (s : AllocState) : AllocStep → AllocState
  | .read .A => { s with locA := some (getNextCaseNumber s.db g) }
  | .read .B => { s with locB := some (getNextCaseNumber s.db g) }
  | .write .A =>
    match s.locA with
    | some n => { s with db := insertRow s.db g n f, resA := some n, locA := none }
    | none => s
  | .write .B =>
    match s.locB with
    | some n => { s with db := insertRow s.db g n f, resB := some n, locB := none }
    | none => s

def runAlloc (g : String) (f : CaseFields) (steps : List AllocStep)
    (s : AllocState) : AllocState :=
  steps.foldl (allocStep g f) s

def initAlloc (db : List Case) : AllocState :=
  { db := db, locA := none, locB := none, resA := none, resB := none }

/-- C3: the documented `COALESCE(MAX(case_number), 0) + 1` read followed by
a separate `INSERT` is not race-safe.  On an empty guild, the interleaving
read-A, read-B, write-A, write-B hands BOTH callers case number 1 —
the aggregate is {1, 1}, not the claimed {1, 2} — while the serialized
schedule yields {1, 2}. -/
theorem concurrent_create_duplicates_caseNumber :
    ((runAlloc "g" sampleFields
        [.read .A, .read .B, .write .A, .write .B] (initAlloc [])).resA = some 1
      ∧ (runAlloc "g" sampleFields
        [.read .A, .read .B, .write .A, .write .B] (initAlloc [])).resB = some 1)
    ∧ ((runAlloc "g" sampleFields
        [.read .A, .write .A, .read .B, .write .B] (initAlloc [])).resA = some 1
      ∧ (runAlloc "g" sampleFields
        [.read .A, .write .A, .read .B, .write .B] (initAlloc [])).resB = some 2) := by
  decide

/-! ## Escalation Engine

Modelled from the spec: `checkEscalation` of the missing
`src/modules/moderation.js`, following the pseudo-code in
`src/unnamed/part_000` (Escalation Logic): if escalation is disabled return
null, otherwise walk the configured thresholds in order, counting warn
cases for `(guildId, targetId)` inside each threshold's lookback window;
the first threshold whose count reaches its warn count fires. -/

def msPerDay : Nat := 86400000

structure Threshold where
  warns : Nat
  withinDays : Nat
  action : String
  duration : Option String
  deriving Repr, DecidableEq

structure EscConfig where
  enabled : Bool
  thresholds : List Threshold
  deriving Repr, DecidableEq

/-- `SELECT COUNT(*) FROM mod_cases WHERE guild_id = $1 AND target_id = $2
AND action = 'warn' AND created_at > NOW() - INTERVAL '$withinDays days'`. -/
def countRecentWarns (db : List Case) (g t : String) (now withinDays : Nat) : Nat :=
  (db.filter (fun c => c.guildId == g && c.targetId == t && c.action == "warn"
    && decide (now < c.createdAt + withinDays * msPerDay))).length

/-- `count >= threshold.warns` for one threshold. -/
def firesAt (db : List Case) (g t : String) (now : Nat) (th : Threshold) : Bool :=
  th.warns ≤ countRecentWarns db g t now th.withinDays

/-- Threshold selection: first configured threshold (in the order given)
whose warn count is reached; none if disabled or none fires. -/
def checkEscalation (db : List Case) (g t : String) (now : Nat)
    (cfg : EscConfig) : Option Threshold :=
  if cfg.enabled then cfg.thresholds.find? (firesAt db g t now) else none

/-- On fire, the engine applies the threshold's action and records a case
with that action and a generated auto-escalation reason. -/
def evaluateEscalation (db : List Case) (g t modId modTag : String)
    (now : Nat) (cfg : EscConfig) (rowId : Nat) :
    Option (Threshold × List Case × Case) :=
  match checkEscalation db g t now cfg with
  | none => none
  | some th =>
    let f : CaseFields :=
      { action := th.action, targetId := t, targetTag := t,
        moderatorId := modId, moderatorTag := modTag,
        reason := some ("Auto-escalation: "
          ++ toString (countRecentWarns db g t now th.withinDays)
          ++ " warns in " ++ toString th.withinDays ++ " days"),
        duration := th.duration, expiresAt := none }
    some (th, createCase db g f rowId now)

theorem find?_first_match {α : Type} (p : α → Bool) (pre : List α) (x : α)
    (post : List α) (hpre : ∀ y ∈ pre, p y = false) (hx : p x = true) :
    (pre ++ x :: post).find? p = some x := by
  induction pre with
  | nil => simp [List.find?, hx]
  | cons a l ih =>
    have ha : p a = false := hpre a (List.mem_cons_self _ _)
    simp only [List.cons_append, List.find?, ha]
    exact ih fun y hy => hpre y (List.mem_cons_of_mem _ hy)

/-- C4: thresholds are evaluated in the order given; the first whose warn
count (for the guild/target, inside its own lookback window) is reached
fires and is the one applied; when escalation is disabled or no threshold
fires, the engine returns null. -/
theorem escalation_first_match (db : List Case) (g t modId modTag : String)
    (now : Nat) (cfg : EscConfig) (rowId : Nat) :
    (cfg.enabled = false → checkEscalation db g t now cfg = none)
    ∧ (∀ pre th post, cfg.enabled = true → cfg.thresholds = pre ++ th :: post →
        (∀ th' ∈ pre, firesAt db g t now th' = false) →
        firesAt db g t now th = true →
        checkEscalation db g t now cfg = some th)
    ∧ (checkEscalation db g t now cfg = none ↔
        cfg.enabled = false ∨ ∀ th ∈ cfg.thresholds, firesAt db g t now th = false)
    ∧ (∀ th, checkEscalation db g t now cfg = some th →
        ∃ r, evaluateEscalation db g t modId modTag now cfg rowId = some (th, r)
          ∧ r.2.action = th.action)
    ∧ (checkEscalation db g t now cfg = none →
        evaluateEscalation db g t modId modTag now cfg rowId = none) := by
  refine ⟨fun h => by simp [checkEscalation, h], ?_, ?_, ?_, ?_⟩
  · intro pre th post hen hsplit hpre hth
    simp only [checkEscalation, hen, if_true, hsplit]
    exact find?_first_match _ pre th post hpre hth
  · constructor
    · intro h
      by_cases hen : cfg.enabled
      · refine Or.inr ?_
        simp only [checkEscalation, hen, if_true] at h
        intro th hth
        exact Bool.eq_false_iff.mpr (List.find?_eq_none.mp h th hth)
      · exact Or.inl (by simpa using hen)
    · rintro (h | h)
      · simp [checkEscalation, h]
      · by_cases hen : cfg.enabled
        · simp only [checkEscalation, hen, if_true]
          exact List.find?_eq_none.mpr fun th hth => by simp [h th hth]
        · simp [checkEscalation, hen]
  · intro th hth
    refine ⟨createCase db g
      { action := th.action, targetId := t, targetTag := t,
        moderatorId := modId, moderatorTag := modTag,
        reason := some ("Auto-escalation: "
          ++ toString (countRecentWarns db g t now th.withinDays)
          ++ " warns in " ++ toString th.withinDays ++ " days"),
        duration := th.duration, expiresAt := none } rowId now, ?_, ?_⟩
    · simp [evaluateEscalation, hth]
    · simp [createCase]
  · intro h
    simp [evaluateEscalation, h]

/-- A warn case for guild `gw`, target `uw`, created at time 9. -/
def warnCaseAt (i : Nat) : Case :=
  { id := i, guildId := "gw", caseNumber := i, action := "warn",
    targetId := "uw", targetTag := "U", moderatorId := "m",
    moderatorTag := "M", reason := none, duration := none,
    expiresAt := none, createdAt := 9 }

/-- Witness for C4, instantiating the spec's P6 scenario: thresholds
`[{warns 3, 7 days, timeout}, {warns 5, 30 days, ban}]` and six qualifying
warns — the engine fires the FIRST threshold (timeout), not the ban. -/
theorem escalation_first_match_witness :
    checkEscalation
        [warnCaseAt 1, warnCaseAt 2, warnCaseAt 3, warnCaseAt 4,
         warnCaseAt 5, warnCaseAt 6] "gw" "uw" 10
        { enabled := true,
          thresholds := [⟨3, 7, "timeout", some "1h"⟩, ⟨5, 30, "ban", none⟩] }
      = some ⟨3, 7, "timeout", some "1h"⟩ := by
  have h := (escalation_first_match
    [warnCaseAt 1, warnCaseAt 2, warnCaseAt 3, warnCaseAt 4,
     warnCaseAt 5, warnCaseAt 6] "gw" "uw" "m" "M" 10
    { enabled := true,
      thresholds := [⟨3, 7, "timeout", some "1h"⟩, ⟨5, 30, "ban", none⟩] } 7).2.1
  exact h [] ⟨3, 7, "timeout", some "1h"⟩ [⟨5, 30, "ban", none⟩] rfl rfl
    (by intro y hy; cases hy) (by decide)

/-! ## Tempban Scheduler

Modelled from the spec: `pollTempbans` of the missing
`src/modules/moderation.js`, following the pseudo-code in
`src/unnamed/part_000` (Tempban Scheduler Logic): select the rows with
`executed = FALSE AND execute_at <= NOW()`, then for each row try the
external unban; on success mark it executed and record an unban case; on
failure log and continue with the next row.  The external unban outcome is
modelled by the predicate `unbanOk`. -/

structure ScheduledAction where
  id : Nat
  guildId : String
  action : String
  targetId : String
  caseId : Nat
  executeAt : Nat
  executed : Bool
  deriving Repr, DecidableEq

/-- `SELECT * FROM mod_scheduled_actions WHERE executed = FALSE AND
execute_at <= NOW()`. -/
def dueRows (sdb : List ScheduledAction) (now : Nat) : List ScheduledAction :=
  sdb.filter (fun r => !r.executed && decide (r.executeAt ≤ now))

/-- `UPDATE mod_scheduled_actions SET executed = TRUE WHERE id = $1`. -/
def markExecuted (sdb : List ScheduledAction) (i : Nat) : List ScheduledAction :=
  sdb.map (fun r => if r.id == i then { r with executed := true } else r)

/-- Fields of the unban case the scheduler records, referencing the
originating tempban case and attributed to the bot identity. -/
def unbanFields (r : ScheduledAction) (botId botTag : String) : CaseFields :=
  { action := "unban", targetId := r.targetId, targetTag := r.targetId,
    moderatorId := botId, moderatorTag := botTag,
    reason := some ("Tempban expired (case #" ++ toString r.caseId ++ ")"),
    duration := none, expiresAt := none }

/-- The per-row loop of the poll: each due row is attempted independently;
a failing row is skipped (error caught per item) and the loop continues.
Returns the scheduled-action table, the case table, and the list of
attempted row ids in order. -/
def runDue (unbanOk : ScheduledAction → Bool) (botId botTag : String)
    (now : Nat) : List ScheduledAction → List ScheduledAction → List Case →
    List ScheduledAction × List Case × List Nat
  | [], sdb, cdb => (sdb, cdb, [])
  | r :: rest, sdb, cdb =>
    if unbanOk r then
      let sdb' := markExecuted sdb r.id
      let cdb' := (createCase cdb r.guildId (unbanFields r botId botTag) 0 now).1
      let out := runDue unbanOk botId botTag now rest sdb' cdb'
      (out.1, out.2.1, r.id :: out.2.2)
    else
      let out := runDue unbanOk botId botTag now rest sdb cdb
      (out.1, out.2.1, r.id :: out.2.2)

/-- One poll cycle: select the due rows once, then run the per-row loop. -/
def pollTempbans (unbanOk : ScheduledAction → Bool) (botId botTag : String)
    (sdb : List ScheduledAction) (cdb : List Case) (now : Nat) :
    List ScheduledAction × List Case × List Nat :=
  runDue unbanOk botId botTag now (dueRows sdb now) sdb cdb

theorem mem_dueRows {sdb : List ScheduledAction} {now : Nat}
    {r : ScheduledAction} :
    r ∈ dueRows sdb now ↔ r ∈ sdb ∧ r.executed = false ∧ r.executeAt ≤ now := by
  simp [dueRows, List.mem_filter, and_assoc]

theorem executed_update_self {r : ScheduledAction} (h : r.executed = true) :
    { r with executed := true } = r := by
  cases r
  simp_all

theorem mem_markExecuted_of_executed {sdb : List ScheduledAction} {i : Nat}
    {r : ScheduledAction} (hex : r.executed = true) (hr : r ∈ sdb) :
    r ∈ markExecuted sdb i := by
  unfold markExecuted
  have : (if r.id == i then { r with executed := true } else r) = r := by
    by_cases h : r.id == i <;> simp [h, executed_update_self hex]
  exact this ▸ List.mem_map_of_mem _ hr

theorem mem_markExecuted_of_ne {sdb : List ScheduledAction} {i : Nat}
    {r : ScheduledAction} (hne : r.id ≠ i) (hr : r ∈ sdb) :
    r ∈ markExecuted sdb i := by
  unfold markExecuted
  have : (if r.id == i then { r with executed := true } else r) = r := by
    simp [hne]
  exact this ▸ List.mem_map_of_mem _ hr

theorem runDue_preserves_executed (unbanOk : ScheduledAction → Bool)
    (botId botTag : String) (now : Nat) (due sdb : List ScheduledAction)
    (cdb : List Case) {r : ScheduledAction} (hex : r.executed = true)
    (hr : r ∈ sdb) :
    r ∈ (runDue unbanOk botId botTag now due sdb cdb).1 := by
  induction due generalizing sdb cdb with
  | nil => simpa [runDue]
  | cons a rest ih =>
    by_cases ha : unbanOk a
    · simpa [runDue, ha] using
        ih (markExecuted sdb a.id)
          ((createCase cdb a.guildId (unbanFields a botId botTag) 0 now).1)
          (mem_markExecuted_of_executed hex hr)
    · simpa [runDue, ha] using ih sdb cdb hr

theorem runDue_preserves_unmarked (unbanOk : ScheduledAction → Bool)
    (botId botTag : String) (now : Nat) (due sdb : List ScheduledAction)
    (cdb : List Case) {r : ScheduledAction}
    (hid : ∀ r' ∈ due, unbanOk r' = true → r'.id ≠ r.id) (hr : r ∈ sdb) :
    r ∈ (runDue unbanOk botId botTag now due sdb cdb).1 := by
  induction due generalizing sdb cdb with
  | nil => simpa [runDue]
  | cons a rest ih =>
    have hrest : ∀ r' ∈ rest, unbanOk r' = true → r'.id ≠ r.id :=
      fun r' h => hid r' (List.mem_cons_of_mem _ h)
    by_cases ha : unbanOk a
    · have hne : r.id ≠ a.id :=
        fun h => hid a (List.mem_cons_self _ _) ha h.symm
      simpa [runDue, ha] using
        ih (markExecuted sdb a.id)
          ((createCase cdb a.guildId (unbanFields a botId botTag) 0 now).1)
          hrest (mem_markExecuted_of_ne hne hr)
    · simpa [runDue, ha] using ih sdb cdb hrest hr

theorem runDue_attempts (unbanOk : ScheduledAction → Bool)
    (botId botTag : String) (now : Nat) (due sdb : List ScheduledAction)
    (cdb : List Case) :
    (runDue unbanOk botId botTag now due sdb cdb).2.2 = due.map (·.id) := by
  induction due generalizing sdb cdb with
  | nil => simp [runDue]
  | cons a rest ih =>
    by_cases ha : unbanOk a <;> simp [runDue, ha, ih]

/-- C5: the poll selects exactly the rows with `executed = false` and
`executeAt ≤ now`; a row already marked executed is never selected, stays
in the table untouched across a poll, and is not selected by any later
poll either. -/
theorem scheduler_poll_selects_due (unbanOk : ScheduledAction → Bool)
    (botId botTag : String) (sdb : List ScheduledAction) (cdb : List Case)
    (now now' : Nat) (r : ScheduledAction) :
    (r ∈ dueRows sdb now ↔ r ∈ sdb ∧ r.executed = false ∧ r.executeAt ≤ now)
    ∧ (r.executed = true → r ∉ dueRows sdb now)
    ∧ (r.executed = true → r ∈ sdb →
        r ∈ (pollTempbans unbanOk botId botTag sdb cdb now).1
        ∧ r ∉ dueRows (pollTempbans unbanOk botId botTag sdb cdb now).1 now') := by
  refine ⟨mem_dueRows, ?_, ?_⟩
  · intro hex hdue
    rcases mem_dueRows.mp hdue with ⟨_, hfalse, _⟩
    rw [hex] at hfalse
    cases hfalse
  · intro hex hr
    refine ⟨runDue_preserves_executed unbanOk botId botTag now _ sdb cdb hex hr, ?_⟩
    intro hdue
    rcases mem_dueRows.mp hdue with ⟨_, hfalse, _⟩
    rw [hex] at hfalse
    cases hfalse

/-- Witness for C5: a row already executed (executeAt long past) is not
selected by a poll at time 100, survives the poll unchanged, and is not
selected at time 200 afterwards either. -/
theorem scheduler_poll_selects_due_witness :
    ({ id := 1, guildId := "g", action := "unban", targetId := "u",
       caseId := 5, executeAt := 0, executed := true } : ScheduledAction).executed = true
    ∧ ({ id := 1, guildId := "g", action := "unban", targetId := "u",
         caseId := 5, executeAt := 0, executed := true } : ScheduledAction) ∉
        dueRows [{ id := 1, guildId := "g", action := "unban", targetId := "u",
                   caseId := 5, executeAt := 0, executed := true }] 100
    ∧ ({ id := 1, guildId := "g", action := "unban", targetId := "u",
         caseId := 5, executeAt := 0, executed := true } : ScheduledAction) ∈
        (pollTempbans (fun _ => true) "bot1" "Bot#0001"
          [{ id := 1, guildId := "g", action := "unban", targetId := "u",
             caseId := 5, executeAt := 0, executed := true }] [] 100).1 := by
  have h := scheduler_poll_selects_due (fun _ => true) "bot1" "Bot#0001"
    [{ id := 1, guildId := "g", action := "unban", targetId := "u",
       caseId := 5, executeAt := 0, executed := true }] [] 100 200
    { id := 1, guildId := "g", action := "unban", targetId := "u",
      caseId := 5, executeAt := 0, executed := true }
  exact ⟨rfl, h.2.1 rfl, (h.2.2 rfl (by simp)).1⟩

/-- C6: error isolation in one poll — every due row is attempted, in
selection order, no matter which rows fail (a failure never aborts the
rest, and the poll itself is a total function); a failed row keeps
`executed = false` and is selected again by the next poll. -/
theorem scheduler_error_isolation (unbanOk : ScheduledAction → Bool)
    (botId botTag : String) (sdb : List ScheduledAction) (cdb : List Case)
    (now : Nat) (r : ScheduledAction)
    (hnodup : (sdb.map (·.id)).Nodup) :
    (pollTempbans unbanOk botId botTag sdb cdb now).2.2
        = (dueRows sdb now).map (·.id)
    ∧ (r ∈ dueRows sdb now → unbanOk r = false →
        r ∈ dueRows (pollTempbans unbanOk botId botTag sdb cdb now).1 now) := by
  constructor
  · exact runDue_attempts unbanOk botId botTag now _ sdb cdb
  · intro hdue hfail
    rcases mem_dueRows.mp hdue with ⟨hr, hfalse, hle⟩
    have hid : ∀ r' ∈ dueRows sdb now, unbanOk r' = true → r'.id ≠ r.id := by
      intro r' hr' hok heq
      have hr'sdb : r' ∈ sdb := (mem_dueRows.mp hr').1
      have : r' = r := List.inj_on_of_nodup_map hnodup hr'sdb hr heq
      rw [this, hfail] at hok
      cases hok
    have hmem := runDue_preserves_unmarked unbanOk botId botTag now
      (dueRows sdb now) sdb cdb hid hr
    exact mem_dueRows.mpr ⟨hmem, hfalse, hle⟩

/-- Witness for C6, instantiating the spec's P9 scenario: two due rows,
the unban for row 1 fails and the one for row 2 succeeds; the poll still
attempts both (in order), row 2 ends up executed, and row 1 is due again. -/
theorem scheduler_error_isolation_witness :
    (pollTempbans (fun r => r.id == 2) "bot1" "Bot#0001"
        [{ id := 1, guildId := "g", action := "unban", targetId := "u1",
           caseId := 5, executeAt := 0, executed := false },
         { id := 2, guildId := "g", action := "unban", targetId := "u2",
           caseId := 6, executeAt := 0, executed := false }] [] 100).2.2 = [1, 2]
    ∧ ({ id := 1, guildId := "g", action := "unban", targetId := "u1",
         caseId := 5, executeAt := 0, executed := false } : ScheduledAction) ∈
        dueRows (pollTempbans (fun r => r.id == 2) "bot1" "Bot#0001"
          [{ id := 1, guildId := "g", action := "unban", targetId := "u1",
             caseId := 5, executeAt := 0, executed := false },
           { id := 2, guildId := "g", action := "unban", targetId := "u2",
             caseId := 6, executeAt := 0, executed := false }] [] 100).1 100
    ∧ ({ id := 2, guildId := "g", action := "unban", targetId := "u2",
         caseId := 6, executeAt := 0, executed := true } : ScheduledAction) ∈
        (pollTempbans (fun r => r.id == 2) "bot1" "Bot#0001"
          [{ id := 1, guildId := "g", action := "unban", targetId := "u1",
             caseId := 5, executeAt := 0, executed := false },
           { id := 2, guildId := "g", action := "unban", targetId := "u2",
             caseId := 6, executeAt := 0, executed := false }] [] 100).1 := by
  have h := scheduler_error_isolation (fun r => r.id == 2) "bot1" "Bot#0001"
    [{ id := 1, guildId := "g", action := "unban", targetId := "u1",
       caseId := 5, executeAt := 0, executed := false },
     { id := 2, guildId := "g", action := "unban", targetId := "u2",
       caseId := 6, executeAt := 0, executed := false }] [] 100
    { id := 1, guildId := "g", action := "unban", targetId := "u1",
      caseId := 5, executeAt := 0, executed := false } (by decide)
  exact ⟨by simpa using h.1, h.2 (by decide) (by decide), by decide⟩

/-! ## Hierarchy check

Modelled from the spec: `checkHierarchy` of the missing
`src/modules/moderation.js`, per `.specs/v2.0.0/moderation-core.md`
("compares `member.roles.highest.position` values", FR-5) and the unit
tests (rejection string containing "cannot moderate" when the target's
highest position is equal or higher; null when the actor is higher). -/

structure Member where
  rank : Nat
  deriving Repr, DecidableEq

def checkHierarchy (actor target : Member) : Option String :=
  if actor.rank ≤ target.rank then
    some "❌ You cannot moderate a member with an equal or higher role."
  else
    none

/-- C8: `checkHierarchy` permits (returns null) exactly when the actor's
highest role rank is strictly greater than the target's, and rejects
whenever the target's rank is greater than or equal to the actor's. -/
theorem hierarchy_permits_iff (actor target : Member) :
    (checkHierarchy actor target = none ↔ target.rank < actor.rank)
    ∧ (actor.rank ≤ target.rank → ∃ msg, checkHierarchy actor target = some msg) := by
  constructor
  · unfold checkHierarchy
    by_cases h : actor.rank ≤ target.rank
    all_goals simp [h]
    all_goals omega

  · intro h
    exact ⟨"❌ You cannot moderate a member with an equal or higher role.",
      by simp [checkHierarchy, h]⟩

/-- Witness for C8: rank 5 actor vs rank 5 target is rejected; rank 10
actor vs rank 5 target is permitted. -/
theorem hierarchy_permits_iff_witness :
    (∃ msg, checkHierarchy ⟨5⟩ ⟨5⟩ = some msg)
    ∧ checkHierarchy ⟨10⟩ ⟨5⟩ = none := by
  exact ⟨(hierarchy_permits_iff ⟨5⟩ ⟨5⟩).2 (by decide),
    (hierarchy_permits_iff ⟨10⟩ ⟨5⟩).1.mpr (by decide)⟩

/-! ## Ban command control flow (src/src/commands/ban.js, execute)

The observable calls of one execution of the `/ban` command, in program
order.  `sendDmNotification` is modelled per its contract (missing
`src/modules/moderation.js`; its unit test "should silently catch DM
failures" and part_000 FR-2): the DM send never throws, a delivery failure
only changes the attempt's outcome, never the control flow. -/

inductive BanEvent where
  | hierarchyRejected
  | botRoleRejected
  | dmAttempt (delivered : Bool)
  | banApiCall
  | caseCreated
  | logPosted
  | confirmReply
  deriving Repr, DecidableEq

structure BanContext where
  /-- the target user could be fetched as a guild member -/
  memberPresent : Bool
  /-- `checkHierarchy(interaction.member, member)` returned a rejection -/
  hierarchyBlocked : Bool
  /-- the bot's own highest role is not above the target's -/
  botRoleTooLow : Bool
  /-- `shouldSendDm(config, 'ban')` -/
  dmEnabled : Bool
  /-- outcome of the DM send (failure is swallowed by `sendDmNotification`) -/
  dmDelivered : Bool
  deriving Repr, DecidableEq

/-- Trace of `execute` in `src/src/commands/ban.js` (lines 39-92): fetch
member; if present, run the hierarchy check and the bot-role check (each
returning early on rejection) and, when the ban DM toggle is on, send the
DM; then call the ban API, create the case, post the mod log and reply. -/
def banExecute (ctx : BanContext) : List BanEvent :=
  if ctx.memberPresent then
    if ctx.hierarchyBlocked then [.hierarchyRejected]
    else if ctx.botRoleTooLow then [.botRoleRejected]
    else
      (if ctx.dmEnabled then [.dmAttempt ctx.dmDelivered] else [])
        ++ [.banApiCall, .caseCreated, .logPosted, .confirmReply]
  else [.banApiCall, .caseCreated, .logPosted, .confirmReply]

/-- C9: whenever the target member is present, the ban is not rejected by
the hierarchy or bot-role checks, and the DM toggle for ban is on, the DM
attempt strictly precedes the ban API call in the execution trace — and
the ban API call is reached whether or not the DM was delivered. -/
theorem dm_before_ban (ctx : BanContext) (hm : ctx.memberPresent = true)
    (hh : ctx.hierarchyBlocked = false) (hb : ctx.botRoleTooLow = false)
    (hdm : ctx.dmEnabled = true) :
    ∃ i j, i < j
      ∧ (banExecute ctx).get? i = some (.dmAttempt ctx.dmDelivered)
      ∧ (banExecute ctx).get? j = some .banApiCall := by
  refine ⟨0, 1, Nat.zero_lt_one, ?_, ?_⟩ <;>
    simp [banExecute, hm, hh, hb, hdm]

/-- Witness for C9 at the interesting input: DM delivery FAILS
(`dmDelivered = false`) yet the trace still issues the DM attempt first
and the ban API call right after. -/
theorem dm_before_ban_witness :
    ∃ i j, i < j
      ∧ (banExecute ⟨true, false, false, true, false⟩).get? i
          = some (.dmAttempt false)
      ∧ (banExecute ⟨true, false, false, true, false⟩).get? j
          = some .banApiCall :=
  dm_before_ban ⟨true, false, false, true, false⟩ rfl rfl rfl rfl


/-! ## Configuration module (src/src/modules/config.js, setConfigValue)

Config values are JSON-like trees; the in-memory cache and the `config`
table both map a top-level section name to its tree.  `setConfigValue`
(config.js lines 121-157): split the dot path (at least section + key),
deep-copy the addressed section, set the value at the nested key on the
copy (creating intermediate objects where the path meets a non-object),
write the copy to the database, and only then install the copy into the
cache.  String-to-value coercion (`parseValue`) is orthogonal to the
cache/DB interplay and the value is taken already parsed here. -/

inductive ConfigVal where
  | leaf (v : String)
  | obj (fields : List (String × ConfigVal))

/-- Object field lookup (`current[key]`). -/
def objGet (c : ConfigVal) (k : String) : Option ConfigVal :=
  match c with
  | .leaf _ => none
  | .obj fs => (fs.find? (fun p => p.1 == k)).map (·.2)

def upsertField : List (String × ConfigVal) → String → ConfigVal →
    List (String × ConfigVal)
  | [], k, v => [(k, v)]
  | (k', v') :: rest, k, v =>
    if k' == k then (k, v) :: rest else (k', v') :: upsertField rest k v

/-- Object field assignment (`current[key] = ...`); assigning on a
non-object replaces it by a fresh object, as the JS navigation does. -/
def objSet (c : ConfigVal) (k : String) (v : ConfigVal) : ConfigVal :=
  match c with
  | .leaf _ => .obj [(k, v)]
  | .obj fs => .obj (upsertField fs k v)

/-- The navigation loop of `setConfigValue` on the section copy: walk the
intermediate keys, replacing a missing or non-object entry by `{}`, and
set the final key to the value. -/
def setIn (c : ConfigVal) : List String → ConfigVal → ConfigVal
  | [], _ => c
  | [k], v => objSet c k v
  | k :: rest, v =>
    let child := match objGet c k with
      | some (.obj fs) => ConfigVal.obj fs
      | _ => ConfigVal.obj []
    objSet c k (setIn child rest v)

/-- The in-memory cache and the `config` table, each mapping a section
name to its value tree. -/
structure ConfigState where
  cache : List (String × ConfigVal)
  dbConfig : List (String × ConfigVal)

def lookupSection (m : List (String × ConfigVal)) (k : String) : Option ConfigVal :=
  (m.find? (fun p => p.1 == k)).map (·.2)

/-- `path.split('.')`: JS `String.prototype.split` on the dot separator
(empty segments preserved). -/
def splitParts : List Char → List Char → List String
  | [], acc => [String.mk acc.reverse]
  | c :: cs, acc =>
    if c = '.' then String.mk acc.reverse :: splitParts cs []
    else splitParts cs (c :: acc)

def splitPath (s : String) : List String :=
  splitParts s.data []

/-- `setConfigValue(path, value)`: the Boolean `dbWriteOk` models whether
the `INSERT ... ON CONFLICT ... DO UPDATE` against the `config` table
succeeds or throws.  Returns the outcome and the post-call state.  The
modified section is built as a separate value from the cache's section
(`structuredClone`), the database is written first, and the cache entry is
replaced only after that write succeeded; a path without at least a
section and a key is rejected up front. -/
def setConfigValue (st : ConfigState) (path : String) (value : ConfigVal)
    (dbWriteOk : Bool) : Except String ConfigVal × ConfigState :=
  match splitPath path with
  | sec :: rest =>
    if rest.isEmpty then
      (.error "Path must include section and key (e.g., \x22ai.model\x22)", st)
    else
      let base := match lookupSection st.cache sec with
        | some c => c
        | none => .obj []
      let newSection := setIn base rest value
      if dbWriteOk then
        (.ok newSection,
          { cache := upsertField st.cache sec newSection,
            dbConfig := upsertField st.dbConfig sec newSection })
      else
        (.error "db write failed", st)
  | [] => (.error "Path must include section and key (e.g., \x22ai.model\x22)", st)

theorem lookupSection_upsertField_self (m : List (String × ConfigVal))
    (k : String) (v : ConfigVal) :
    lookupSection (upsertField m k v) k = some v := by
  induction m with
  | nil => simp [upsertField, lookupSection, List.find?]
  | cons p rest ih =>
    rcases p with ⟨p1, p2⟩
    by_cases h : p1 = k
    · subst h
      simp [upsertField, lookupSection, List.find?]
    · have hb : (p1 == k) = false := by simp [h]
      simpa [upsertField, hb, lookupSection, List.find?] using ih

theorem lookupSection_upsertField_ne (m : List (String × ConfigVal))
    (k k' : String) (v : ConfigVal) (hne : k' ≠ k) :
    lookupSection (upsertField m k v) k' = lookupSection m k' := by
  have hkk : (k == k') = false := by simp [Ne.symm hne]
  induction m with
  | nil => simp [upsertField, lookupSection, List.find?, hkk]
  | cons p rest ih =>
    rcases p with ⟨p1, p2⟩
    by_cases h : p1 = k
    · subst h
      simp [upsertField, lookupSection, List.find?, hkk]
    · have hb : (p1 == k) = false := by simp [h]
      by_cases h' : p1 = k'
      · subst h'
        simp [upsertField, hb, lookupSection, List.find?]
      · have hb' : (p1 == k') = false := by simp [h']
        simpa [upsertField, hb, lookupSection, List.find?, hb'] using ih

/-- C10: `setConfigValue` is atomic with respect to the cache: when the
database write throws, the call reports an error and both the in-memory
cache and the stored config are exactly what they were before the call;
a malformed path (no key after the section) changes nothing either; and
on success the new section value is installed — identically — in the
database and the cache, with every other section untouched. -/
theorem setConfigValue_atomic (st : ConfigState) (path : String)
    (value : ConfigVal) :
    ((setConfigValue st path value false).2 = st
      ∧ ∃ e, (setConfigValue st path value false).1 = Except.error e)
    ∧ (∀ ok, (splitPath path).length < 2 →
        (setConfigValue st path value ok).2 = st)
    ∧ (∀ sec rest, splitPath path = sec :: rest → rest ≠ [] →
        lookupSection (setConfigValue st path value true).2.cache sec
            = some (setIn (match lookupSection st.cache sec with
                | some c => c
                | none => ConfigVal.obj []) rest value)
          ∧ lookupSection (setConfigValue st path value true).2.dbConfig sec
            = lookupSection (setConfigValue st path value true).2.cache sec
          ∧ ∀ other, other ≠ sec →
              lookupSection (setConfigValue st path value true).2.cache other
                = lookupSection st.cache other) := by
  refine ⟨?_, ?_, ?_⟩
  · unfold setConfigValue
    rcases hsplit : splitPath path with _ | ⟨sec, rest⟩
    · exact ⟨rfl, _, rfl⟩
    · by_cases hr : rest.isEmpty <;> simp [hr]
  · intro ok hlen
    unfold setConfigValue
    rcases hsplit : splitPath path with _ | ⟨sec, rest⟩
    · rfl
    · rw [hsplit] at hlen
      have hnil : rest = [] := by
        cases rest with
        | nil => rfl
        | cons a l => exact absurd hlen (by simp)
      subst hnil
      simp
  · intro sec rest hsplit hrest
    have hne : rest.isEmpty = false := by
      cases rest with
      | nil => exact absurd rfl hrest
      | cons a l => rfl
    unfold setConfigValue
    rw [hsplit]
    simp only [hne, Bool.false_eq_true, if_false, if_true]
    refine ⟨lookupSection_upsertField_self _ _ _, ?_, ?_⟩
    · rw [lookupSection_upsertField_self, lookupSection_upsertField_self]
    · intro other hother
      exact lookupSection_upsertField_ne _ _ _ _ hother

/-- Witness for C10 at a concrete state: cache `{ai: {model: "m1"}}`;
setting `"ai.model"` to `"m2"` with a failing DB write leaves the state
untouched, while a succeeding write installs the new section. -/
theorem setConfigValue_atomic_witness :
    (setConfigValue
        { cache := [("ai", .obj [("model", .leaf "m1")])],
          dbConfig := [("ai", .obj [("model", .leaf "m1")])] }
        "ai.model" (.leaf "m2") false).2
      = { cache := [("ai", .obj [("model", .leaf "m1")])],
          dbConfig := [("ai", .obj [("model", .leaf "m1")])] }
    ∧ lookupSection (setConfigValue
        { cache := [("ai", .obj [("model", .leaf "m1")])],
          dbConfig := [("ai", .obj [("model", .leaf "m1")])] }
        "ai.model" (.leaf "m2") true).2.cache "ai"
      = some (.obj [("model", .leaf "m2")]) := by
  have h := setConfigValue_atomic
    { cache := [("ai", .obj [("model", .leaf "m1")])],
      dbConfig := [("ai", .obj [("model", .leaf "m1")])] }
    "ai.model" (.leaf "m2")
  refine ⟨h.1.1, ?_⟩
  have h2 := (h.2.2 "ai" ["model"] (by decide) (by decide)).1
  rw [h2]
  rfl

/-! ## Duration codec

Modelled from the spec: `parseDuration` / `formatDuration` of the missing
`src/utils/duration.js`, per spec §4.1 — `parse` accepts a compact duration
token, an integer magnitude followed by a unit suffix among {s, m, h, d, w},
case-insensitive, and fails on anything else (empty string, negative
magnitude, unknown unit); `format` renders the largest applicable unit
combination over the same unit set (e.g. "1h", "5m 30s"), zero rendering
as "0s". -/

/-- Milliseconds per unit suffix, case-insensitive; `none` = unknown unit. -/
def msPerUnit (c : Char) : Option Nat :=
  match c with
  | 's' | 'S' => some 1000
  | 'm' | 'M' => some 60000
  | 'h' | 'H' => some 3600000
  | 'd' | 'D' => some 86400000
  | 'w' | 'W' => some 604800000
  | _ => none

def digitChar (d : Nat) : Char :=
  match d with
  | 0 => '0' | 1 => '1' | 2 => '2' | 3 => '3' | 4 => '4'
  | 5 => '5' | 6 => '6' | 7 => '7' | 8 => '8' | _ => '9'

def charVal (c : Char) : Nat := c.toNat - 48

/-- Little-endian base-10 digits of `n`, with explicit fuel (any fuel
at least `n` is enough). -/
def natDigitsRev : Nat → Nat → List Nat
  | 0, _ => []
  | fuel + 1, n => if n = 0 then [] else n % 10 :: natDigitsRev fuel (n / 10)

/-- Decimal numeral of `n`, most significant digit first. -/
def writeNat (n : Nat) : List Char :=
  if n = 0 then ['0'] else ((natDigitsRev n n).map digitChar).reverse

/-- Reads a decimal numeral, most significant digit first. -/
def readNat (ds : List Char) : Nat :=
  ds.foldl (fun a c => 10 * a + charVal c) 0

/-- `parse(text)`: a non-empty digit prefix followed by exactly one unit
character. -/
def parseChars (cs : List Char) : Option Nat :=
  match cs.takeWhile Char.isDigit, cs.dropWhile Char.isDigit with
  | [], _ => none
  | d :: ds, [u] =>
    match msPerUnit u with
    | some k => some (readNat (d :: ds) * k)
    | none => none
  | _ :: _, _ => none

def parseDuration (s : String) : Option Nat :=
  parseChars s.data

/-- Greedy unit decomposition of a duration: weeks, then days, hours,
minutes, seconds on the successive remainders; zero components are
dropped. -/
def formatComponents (ms : Nat) : List (Nat × Char) :=
  [(ms / 604800000, 'w'),
   (ms % 604800000 / 86400000, 'd'),
   (ms % 604800000 % 86400000 / 3600000, 'h'),
   (ms % 604800000 % 86400000 % 3600000 / 60000, 'm'),
   (ms % 604800000 % 86400000 % 3600000 % 60000 / 1000, 's')].filter
    (fun p => decide (p.1 ≠ 0))

def renderComponent (p : Nat × Char) : List Char :=
  writeNat p.1 ++ [p.2]

def joinSpaces : List (List Char) → List Char
  | [] => []
  | [x] => x
  | x :: xs => x ++ ' ' :: joinSpaces xs

def formatDuration (ms : Nat) : String :=
  match formatComponents ms with
  | [] => "0s"
  | ps => String.mk (joinSpaces (ps.map renderComponent))

/-! ### Decimal numeral round-trip -/

/-- Little-endian value of a digit list. -/
def digitsVal : List Nat → Nat
  | [] => 0
  | d :: ds => d + 10 * digitsVal ds

theorem natDigitsRev_val (fuel : Nat) :
    ∀ n, n ≤ fuel → digitsVal (natDigitsRev fuel n) = n := by
  induction fuel with
  | zero => intro n hn; interval_cases n; rfl
  | succ fuel ih =>
    intro n hn
    by_cases h0 : n = 0
    · subst h0; rfl
    · have hdiv : n / 10 ≤ fuel := by
        have := Nat.div_lt_self (Nat.pos_of_ne_zero h0) (by norm_num : 1 < 10)
        omega
      simp only [natDigitsRev, h0, if_false, digitsVal, ih (n / 10) hdiv]
      omega

theorem natDigitsRev_lt (fuel : Nat) :
    ∀ n d, d ∈ natDigitsRev fuel n → d < 10 := by
  induction fuel with
  | zero => intro n d hd; cases hd
  | succ fuel ih =>
    intro n d hd
    by_cases h0 : n = 0
    · subst h0; cases hd
    · simp only [natDigitsRev, h0, if_false] at hd
      rcases List.mem_cons.mp hd with h | h
      · subst h; exact Nat.mod_lt _ (by norm_num)
      · exact ih _ _ h

theorem charVal_digitChar {d : Nat} (hd : d < 10) : charVal (digitChar d) = d := by
  interval_cases d <;> rfl

theorem isDigit_digitChar {d : Nat} (hd : d < 10) :
    (digitChar d).isDigit = true := by
  interval_cases d <;> rfl

theorem readNat_rev_map (L : List Nat) (hL : ∀ d ∈ L, d < 10) :
    readNat ((L.map digitChar).reverse) = digitsVal L := by
  unfold readNat
  rw [List.foldl_reverse]
  induction L with
  | nil => rfl
  | cons d ds ih =>
    have hd : d < 10 := hL d (List.mem_cons_self _ _)
    simp only [List.map_cons, List.foldr_cons, digitsVal,
      ih fun e he => hL e (List.mem_cons_of_mem _ he), charVal_digitChar hd]
    omega

theorem readNat_writeNat (n : Nat) : readNat (writeNat n) = n := by
  by_cases h0 : n = 0
  · subst h0; rfl
  · unfold writeNat
    rw [if_neg h0, readNat_rev_map _ (natDigitsRev_lt n n), natDigitsRev_val n n le_rfl]

theorem writeNat_all_digits (n : Nat) :
    ∀ c ∈ writeNat n, c.isDigit = true := by
  unfold writeNat
  by_cases h0 : n = 0
  · subst h0; intro c hc; simp at hc; subst hc; rfl
  · rw [if_neg h0]
    intro c hc
    rw [List.mem_reverse] at hc
    rcases List.mem_map.mp hc with ⟨d, hd, rfl⟩
    exact isDigit_digitChar (natDigitsRev_lt n n d hd)

theorem writeNat_ne_nil (n : Nat) : writeNat n ≠ [] := by
  unfold writeNat
  by_cases h0 : n = 0
  · simp [h0]
  · rw [if_neg h0]
    intro hcon
    have h1 : natDigitsRev n n = [] := by
      by_contra hne
      rcases List.exists_cons_of_ne_nil hne with ⟨d, ds, hds⟩
      rw [hds] at hcon
      simp at hcon
    have hval := natDigitsRev_val n n le_rfl
    rw [h1] at hval
    exact h0 (by simpa [digitsVal] using hval.symm)

/-! ### Parsing a single rendered token -/

theorem takeWhile_digits_append (ds : List Char) (u : Char)
    (hds : ∀ c ∈ ds, c.isDigit = true) (hu : u.isDigit = false) :
    (ds ++ [u]).takeWhile Char.isDigit = ds
    ∧ (ds ++ [u]).dropWhile Char.isDigit = [u] := by
  induction ds with
  | nil => simp [List.takeWhile, List.dropWhile, hu]
  | cons c cs ih =>
    have hc : c.isDigit = true := hds c (List.mem_cons_self _ _)
    have hcs := ih fun e he => hds e (List.mem_cons_of_mem _ he)
    simp only [List.cons_append, List.takeWhile_cons, List.dropWhile_cons, hc,
      if_true]
    exact ⟨by rw [hcs.1], by rw [hcs.2]⟩

theorem msPerUnit_not_digit {u : Char} {k : Nat} (hu : msPerUnit u = some k) :
    u.isDigit = false := by
  unfold msPerUnit at hu
  split at hu <;> first | rfl | cases hu

theorem parse_single_token (m : Nat) (u : Char) (k : Nat)
    (hu : msPerUnit u = some k) :
    parseDuration (String.mk (writeNat m ++ [u])) = some (m * k) := by
  have htw := takeWhile_digits_append (writeNat m) u (writeNat_all_digits m)
    (msPerUnit_not_digit hu)
  obtain ⟨d, ds, hcons⟩ : ∃ d ds, writeNat m = d :: ds := by
    rcases hx : writeNat m with _ | ⟨d, ds⟩
    · exact absurd hx (writeNat_ne_nil m)
    · exact ⟨d, ds, rfl⟩
  show parseChars (writeNat m ++ [u]) = some (m * k)
  unfold parseChars
  rw [htw.1, htw.2, hcons]
  show (match msPerUnit u with
    | some k => some (readNat (d :: ds) * k)
    | none => none) = some (m * k)
  rw [hu, ← hcons, readNat_writeNat]

theorem parseDuration_dvd (x : String) (v : Nat)
    (h : parseDuration x = some v) : 1000 ∣ v := by
  unfold parseDuration parseChars at h
  rcases htw : x.data.takeWhile Char.isDigit with _ | ⟨d, ds⟩ <;> rw [htw] at h
  · cases h
  · rcases hdw : x.data.dropWhile Char.isDigit with _ | ⟨u, rest⟩ <;> rw [hdw] at h
    · cases h
    · rcases rest with _ | ⟨u2, rest2⟩
      · have h2 : (match msPerUnit u with
            | some k => some (readNat (d :: ds) * k)
            | none => none) = some v := h
        rcases hk : msPerUnit u with _ | k <;> rw [hk] at h2
        · cases h2
        · obtain rfl : readNat (d :: ds) * k = v := by
            injection h2
          have hk1000 : 1000 ∣ k := by
            unfold msPerUnit at hk
            split at hk <;>
              first
                | (injection hk with hk; subst hk; norm_num)
                | cases hk
          exact Dvd.dvd.mul_left hk1000 _
      · cases h

/-- C7 counterexample: `parse` accepts only a single magnitude-and-unit
token, while `format` renders multi-unit combinations; at the accepted
input "90m" (= 5400000 ms) the round trip fails — `format` yields
"1h 30m", which `parse` rejects. -/
theorem duration_roundtrip_fails_on_90m :
    parseDuration "90m" = some 5400000
    ∧ formatDuration 5400000 = "1h 30m"
    ∧ parseDuration (formatDuration 5400000) = none
    ∧ parseDuration (formatDuration 5400000) ≠ parseDuration "90m" := by
  refine ⟨by decide, by decide, by decide, by decide⟩

/-- C7 as amended: the round trip `parse(format(parse x)) = parse x` holds
for every accepted input whose value needs only a single unit component
(its greedy decomposition has at most one nonzero part, e.g. "0s", "5s",
"1m", "1h", "1d", "1w", "120s"); it fails for accepted inputs spanning
several units, such as "90m" (see the counterexample). -/
theorem duration_roundtrip_single_component (x : String) (v : Nat)
    (hparse : parseDuration x = some v)
    (hone : (formatComponents v).length ≤ 1) :
    parseDuration (formatDuration v) = some v := by
  have hdvd : 1000 ∣ v := parseDuration_dvd x v hparse
  by_cases hw : v / 604800000 = 0 <;>
    by_cases hd : v % 604800000 / 86400000 = 0 <;>
      by_cases hh : v % 604800000 % 86400000 / 3600000 = 0 <;>
        by_cases hm : v % 604800000 % 86400000 % 3600000 / 60000 = 0 <;>
          by_cases hs : v % 604800000 % 86400000 % 3600000 % 60000 / 1000 = 0
  all_goals try (simp [formatComponents, hw, hd, hh, hm, hs] at hone)
  · have hv : v = 0 := by omega
    subst hv
    decide
  · have hcomp : formatComponents v
        = [(v % 604800000 % 86400000 % 3600000 % 60000 / 1000, 's')] := by
      simp [formatComponents, hw, hd, hh, hm, hs]
    have hfd : formatDuration v = String.mk
        (writeNat (v % 604800000 % 86400000 % 3600000 % 60000 / 1000) ++ ['s']) := by
      unfold formatDuration
      rw [hcomp]
      rfl
    rw [hfd, parse_single_token _ 's' 1000 rfl]
    congr 1
    omega
  · have hcomp : formatComponents v
        = [(v % 604800000 % 86400000 % 3600000 / 60000, 'm')] := by
      simp [formatComponents, hw, hd, hh, hm, hs]
    have hfd : formatDuration v = String.mk
        (writeNat (v % 604800000 % 86400000 % 3600000 / 60000) ++ ['m']) := by
      unfold formatDuration
      rw [hcomp]
      rfl
    rw [hfd, parse_single_token _ 'm' 60000 rfl]
    congr 1
    omega
  · have hcomp : formatComponents v
        = [(v % 604800000 % 86400000 / 3600000, 'h')] := by
      simp [formatComponents, hw, hd, hh, hm, hs]
    have hfd : formatDuration v = String.mk
        (writeNat (v % 604800000 % 86400000 / 3600000) ++ ['h']) := by
      unfold formatDuration
      rw [hcomp]
      rfl
    rw [hfd, parse_single_token _ 'h' 3600000 rfl]
    congr 1
    omega
  · have hcomp : formatComponents v
        = [(v % 604800000 / 86400000, 'd')] := by
      simp [formatComponents, hw, hd, hh, hm, hs]
    have hfd : formatDuration v = String.mk
        (writeNat (v % 604800000 / 86400000) ++ ['d']) := by
      unfold formatDuration
      rw [hcomp]
      rfl
    rw [hfd, parse_single_token _ 'd' 86400000 rfl]
    congr 1
    omega
  · have hcomp : formatComponents v = [(v / 604800000, 'w')] := by
      simp [formatComponents, hw, hd, hh, hm, hs]
    have hfd : formatDuration v = String.mk
        (writeNat (v / 604800000) ++ ['w']) := by
      unfold formatDuration
      rw [hcomp]
      rfl
    rw [hfd, parse_single_token _ 'w' 604800000 rfl]
    congr 1
    omega

/-- Witness for the amended C7 at "5s": a single-component accepted input
round-trips. -/
theorem duration_roundtrip_single_component_witness :
    parseDuration (formatDuration 5000) = some 5000 :=
  duration_roundtrip_single_component "5s" 5000 (by decide) (by decide)

end BillsBot
